import Mathlib

/-!
Formal model of the MintaiDialect client-side streaming voice-reply pipeline.

The definitions below are a shallow embedding of the code in
`frontend/src/pages/DigitalJiagengPage.tsx` (streaming queue, stream chunk
handler, recording-stop / WAV-conversion flow, subtitle display on
`ontimeupdate`) and `frontend/src/pages/DigitalJiagengPage copy.tsx`
(`generateSubtitles`, `stripPunctForDisplay`, `analyzeAudioSilences`,
`refineSubtitlesWithAudio`).

Modelling conventions:
* JavaScript numbers are modelled as exact rationals (`ℚ`); the claims under
  check do not hinge on binary floating-point rounding.
* Strings are processed as their character lists (`for (const ch of text)`
  iterates code points, as `String.data` does).
* Host facilities (audio decoding, `OfflineAudioContext` rendering, `Audio`
  playback) are modelled as explicit parameters / events: a decode result is
  an `Option`, playback progress arrives as events (`ended`, `errored`),
  and the derived observable state is carried in an explicit record.
-/

/-! ### `Math.min` / `Math.max`

Defined explicitly over `ℚ` (rather than through the lattice operations) so
that every definition in this file evaluates by kernel reduction. -/

/-- `Math.min` on rationals. -/
def rmin (a b : ℚ) : ℚ := if a ≤ b then a else b

/-- `Math.max` on rationals. -/
def rmax (a b : ℚ) : ℚ := if a ≤ b then b else a

theorem rmin_eq_min (a b : ℚ) : rmin a b = min a b := by
  unfold rmin
  split
  · next h => exact (min_eq_left h).symm
  · next h => exact (min_eq_right (le_of_not_le h)).symm

theorem rmax_eq_max (a b : ℚ) : rmax a b = max a b := by
  unfold rmax
  split
  · next h => exact (max_eq_right h).symm
  · next h => exact (max_eq_left (le_of_not_le h)).symm

/-! ### Character classes and string helpers (`stripPunctForDisplay` etc.) -/

/-- JavaScript `\s` membership, restricted to the whitespace characters that
can actually occur in this pipeline (ASCII whitespace, NBSP, CJK space). -/
def isWsChar (c : Char) : Bool :=
  c == ' ' || c == '\t' || c == '\n' || c == '\r' ||
  c == '\x0b' || c == '\x0c' || c == ' ' || c == '　'

/-- JavaScript `String.prototype.trim` on a character list. -/
def trimWs (l : List Char) : List Char :=
  ((l.dropWhile isWsChar).reverse.dropWhile isWsChar).reverse

/-- Helper for `text.split(/\s+/).filter(Boolean)`: accumulates the current
token (reversed) in `buf`. -/
def splitWsAux : List Char → List Char → List (List Char)
  | [], buf => if buf.isEmpty then [] else [buf.reverse]
  | c :: rest, buf =>
    if isWsChar c then
      if buf.isEmpty then splitWsAux rest [] else buf.reverse :: splitWsAux rest []
    else splitWsAux rest (c :: buf)

/-- `text.split(/\s+/).filter(Boolean)` — whitespace-run split, empty parts
dropped. -/
def splitWs (l : List Char) : List (List Char) :=
  splitWsAux l []

/-- The sentence-ending punctuation set of `generateSubtitles`
(`['，', ',', '。', '.', '！', '!', '？', '?']`). -/
def isSentencePunct (c : Char) : Bool :=
  c == '，' || c == ',' || c == '。' || c == '.' ||
  c == '！' || c == '!' || c == '？' || c == '?'

/-- The display punctuation class removed by `stripPunctForDisplay`
(`[，,。.！!？?、；;：:（）()【】[]“”‘’'"…—-]`). -/
def isDisplayPunct (c : Char) : Bool :=
  c == '，' || c == ',' || c == '。' || c == '.' ||
  c == '！' || c == '!' || c == '？' || c == '?' ||
  c == '、' || c == '；' || c == ';' || c == '：' || c == ':' ||
  c == '（' || c == '）' || c == '(' || c == ')' ||
  c == '【' || c == '】' || c == '[' || c == ']' ||
  c == '“' || c == '”' || c == '‘' || c == '’' ||
  c == '\'' || c == '"' || c == '…' || c == '—' || c == '-'

/-- Separator class `[:：\\/\-]` of the role-tag regex. -/
def isTagSep (c : Char) : Bool :=
  c == ':' || c == '：' || c == '\\' || c == '/' || c == '-'

/-- Matches the literal alternation `(zh|tlp)` case-insensitively at the head
of the list, returning the remainder on success. -/
def matchRoleTag : List Char → Option (List Char)
  | c1 :: c2 :: rest =>
    if c1.toLower == 'z' && c2.toLower == 'h' then some rest
    else
      match rest with
      | c3 :: rest2 =>
        if c1.toLower == 't' && c2.toLower == 'l' && c3.toLower == 'p' then
          some rest2
        else none
      | [] => none
  | _ => none

/-- `s.replace(/^\s*(zh|tlp)\s*[:：\\/\-]*\s*/i, '')`: strip an optional
leading role label.  The regex's parts consume disjoint character classes, so
greedy matching without backtracking is exact. -/
def stripRoleTag (l : List Char) : List Char :=
  match matchRoleTag (l.dropWhile isWsChar) with
  | some rest => ((rest.dropWhile isWsChar).dropWhile isTagSep).dropWhile isWsChar
  | none => l

/-- `stripPunctForDisplay` on a character list: strip the role-tag label,
remove backslashes, remove display punctuation, trim. -/
def stripPunctChars (l : List Char) : List Char :=
  trimWs (((stripRoleTag l).filter (fun c => c != '\\')).filter
    (fun c => !(isDisplayPunct c)))

/-- `stripPunctForDisplay` (identical in both page variants): sanitizes a chunk
of text for subtitle display. -/
def stripPunctForDisplay (s : String) : String :=
  String.mk (stripPunctChars s.data)

/-! ### `generateSubtitles` — segmentation and equal-division fallback -/

/-- A subtitle cue `{ text, start_time, end_time }`. -/
structure Cue where
  text : String
  start_time : ℚ
  end_time : ℚ
deriving DecidableEq

/-- The sentence-accumulation loop of `generateSubtitles`
(`for (const ch of text) { buf += ch; if punct then push buf.trim() }`,
with the trailing unterminated remainder pushed at the end).  `buf` holds the
pending sentence reversed. -/
def punctSplitAux : List Char → List Char → List (List Char)
  | [], buf =>
    if (trimWs buf.reverse).isEmpty then [] else [trimWs buf.reverse]
  | c :: rest, buf =>
    if isSentencePunct c then
      let seg := trimWs (c :: buf).reverse
      if seg.isEmpty then punctSplitAux rest [] else seg :: punctSplitAux rest []
    else punctSplitAux rest (c :: buf)

/-- The punctuation-split sentences after the `filter(s => s && s.trim())`
step of `generateSubtitles`. -/
def punctSegments (text : List Char) : List (List Char) :=
  (punctSplitAux text []).filter (fun s => !s.isEmpty && !(trimWs s).isEmpty)

/-- Fixed-length character windows (`MAX_CHARS = 12`) used as the last-resort
segmentation strategy. -/
def chunksOf12Go : ℕ → List Char → List (List Char)
  | 0, _ => []
  | fuel + 1, l => if l = [] then [] else l.take 12 :: chunksOf12Go fuel (l.drop 12)

/-- `for (let i = 0; i < noPunct.length; i += MAX_CHARS) tmp.push(slice)`;
the fuel `l.length` bounds the iteration count (each round consumes 12
characters). -/
def chunksOf12 (l : List Char) : List (List Char) :=
  chunksOf12Go l.length l

/-- The segmentation strategy selection of `generateSubtitles` (its `segs`
computation): whitespace split when it yields at least 3 tokens; otherwise the
punctuation split; if that collapses to at most one chunk, the whitespace
split is reused whenever it yields more than one token; otherwise 12-character
windows over the punctuation-stripped text. -/
def segmentText (text : List Char) : List (List Char) :=
  let spaceParts := splitWs text
  if 3 ≤ spaceParts.length then spaceParts
  else
    let segs := punctSegments text
    let segs := if segs.length ≤ 1 && 1 < spaceParts.length then spaceParts else segs
    if segs.length ≤ 1 then chunksOf12 (stripPunctChars text) else segs

/-- `generateSubtitles(rawText, durationSec)`: segment the text and divide
`[0, total]` into equal slots, one per chunk.  Over `ℚ` every value is finite,
so the source's `isFinite(durationSec) && durationSec > 0` test reduces to
`0 < durationSec`. -/
def generateSubtitles (rawText : String) (durationSec : ℚ) : List Cue :=
  let text := trimWs rawText.data
  if text.isEmpty then []
  else
    let displaySegs := (segmentText text).map stripPunctChars
    let n := max 1 displaySegs.length
    let total := if 0 < durationSec then durationSec else (n : ℚ)
    let slot := total / n
    (List.range n).map fun i =>
      { text := String.mk (displaySegs.getD i [])
        start_time := i * slot
        end_time := if i = n - 1 then total else (i + 1) * slot }

/-! ### `analyzeAudioSilences` — silence boundary and onset detection

The source first decodes the clip and computes one RMS energy value per
20 ms frame (10 ms hop): `rms.push(Math.sqrt(sum / frameSize))`.  Square
roots are irrational, so the model is parameterized by the resulting frame
RMS sequence (a list of rationals, one per frame) and by the decoded
duration; everything downstream of the RMS computation — threshold
selection, onset detection, boundary emission — is embedded verbatim.
`hopMs = 10` is a fixed constant, so `minVoiceFrames` and
`minSilenceFrames` do not depend on the sample rate. -/

/-- Result of `analyzeAudioSilences`: candidate silence boundaries, clip
duration, and the estimated speech onset. -/
structure SilenceProfile where
  boundaryTimes : List ℚ
  duration : ℚ
  onsetTime : ℚ
deriving DecidableEq

/-- `Math.max(1, Math.floor(minVoiceMs / hopMs))` with `minVoiceMs = 120`,
`hopMs = 10`. -/
def minVoiceFrames : ℕ := max 1 (120 / 10)

/-- `Math.max(1, Math.floor(minSilenceMs / hopMs))` with `minSilenceMs = 180`,
`hopMs = 10`. -/
def minSilenceFrames : ℕ := max 1 (180 / 10)

/-- The boundary timestamp emitted at frame `idx`:
`((idx - Math.floor(minSilenceFrames / 2)) * hopMs) / 1000`. -/
def boundaryTimeAt (idx : ℕ) : ℚ :=
  ((idx : ℚ) - ((minSilenceFrames / 2 : ℕ) : ℚ)) * 10 / 1000

/-- Mutable loop state of the frame scan in `analyzeAudioSilences`. -/
structure SilenceScan where
  run : ℕ
  voiceRun : ℕ
  onsetFound : Bool
  onsetTime : ℚ
  boundaryTimes : List ℚ
deriving DecidableEq

/-- One iteration of the frame loop of `analyzeAudioSilences` at frame
index `idx` with frame RMS `r`. -/
def silenceStep (threshold : ℚ) (idx : ℕ) (r : ℚ) (st : SilenceScan) : SilenceScan :=
  let run := if r < threshold then st.run + 1 else 0
  let onset :=
    if !st.onsetFound then
      if rmin 0.08 (threshold * 1.6) ≤ r then
        let v := st.voiceRun + 1
        if minVoiceFrames ≤ v then
          (v, true, rmax 0 (((idx : ℚ) - (minVoiceFrames : ℚ)) * 10 / 1000))
        else (v, false, st.onsetTime)
      else (0, false, st.onsetTime)
    else (st.voiceRun, st.onsetFound, st.onsetTime)
  let boundaryTimes :=
    if run = minSilenceFrames then
      let time := boundaryTimeAt idx
      if 0 < time then st.boundaryTimes ++ [time] else st.boundaryTimes
    else st.boundaryTimes
  { run := run, voiceRun := onset.1, onsetFound := onset.2.1,
    onsetTime := onset.2.2, boundaryTimes := boundaryTimes }

/-- The frame loop of `analyzeAudioSilences` (`for (let idx = 0; ...)`). -/
def silenceScan (threshold : ℚ) : ℕ → List ℚ → SilenceScan → SilenceScan
  | _, [], st => st
  | idx, r :: rest, st => silenceScan threshold (idx + 1) rest (silenceStep threshold idx r st)

/-- `analyzeAudioSilences`, parameterized by the per-frame RMS sequence and
decoded duration.  The dynamic threshold is the 35th-percentile RMS
(`sorted[Math.floor(sorted.length * 0.35)] || 0.01`, where JavaScript `||`
replaces a missing or zero percentile by `0.01`), clamped to
`[0.005, 0.03]`. -/
def analyzeAudioSilences (rms : List ℚ) (duration : ℚ) : SilenceProfile :=
  let sorted := List.insertionSort (· ≤ ·) rms
  let q : ℚ :=
    match sorted.get? (rms.length * 35 / 100) with
    | none => 0.01
    | some v => if v = 0 then 0.01 else v
  let threshold := rmax 0.005 (rmin 0.03 q)
  let final := silenceScan threshold 0 rms ⟨0, 0, false, 0, []⟩
  { boundaryTimes := final.boundaryTimes
    duration := duration
    onsetTime := if final.onsetFound then final.onsetTime else 0 }

/-! ### `refineSubtitlesWithAudio` — audio-fitted alignment -/

/-- The fallback branch of `refineSubtitlesWithAudio`: shift every cue
earlier by `shift`, clamping starts at `0` and keeping at least `0.2 s` of
duration. -/
def shiftFallback (fallback : List Cue) (shift : ℚ) : List Cue :=
  fallback.map fun seg =>
    let ns := rmax 0 (seg.start_time - shift)
    let ne := rmax (ns + 0.2) (seg.end_time - shift)
    { seg with start_time := ns, end_time := ne }

/-- The cue-construction loop of the audio-fitted branch
(`for (let i = 0; i < n; i++)`), with the carried cell start `start`.  The
source's locals are inlined: `e = i === n-1 ? duration : cut[i]`,
`adjStart = Math.max(0, start - shift)`,
`adjEnd = Math.max(adjStart + 0.2, e - shift)`. -/
def fitLoop (fallback : List Cue) (cut : List ℚ) (duration shift : ℚ) (n : ℕ) :
    ℕ → ℚ → List Cue
  | i, start =>
    if h : i < n then
      { text := ((fallback.get? i).map Cue.text).getD ""
        start_time := rmax 0 (start - shift)
        end_time := rmax (rmax 0 (start - shift) + 0.2)
          ((if i = n - 1 then duration else cut.getD i 0) - shift) }
        :: fitLoop fallback cut duration shift n (i + 1)
             (if i = n - 1 then duration else cut.getD i 0)
    else []
termination_by i _ => n - i
decreasing_by omega

/-- `seg.end_time - seg.start_time >= MIN_DUR` with `MIN_DUR = 0.25`. -/
def cueDurOk (c : Cue) : Bool :=
  decide (0.25 ≤ c.end_time - c.start_time)

/-- Tail of the sanity-check loop: checks every remaining cue's minimum
duration and the adjacency condition
`seg.start_time >= results[i-1].end_time - 1e-3` against the previous cue. -/
def sanityAux (prev : Cue) : List Cue → Bool
  | [] => true
  | c :: rest =>
    cueDurOk c && decide (prev.end_time - 0.001 ≤ c.start_time) && sanityAux c rest

/-- The full sanity check (`monotonic`) of `refineSubtitlesWithAudio`. -/
def sanityOk : List Cue → Bool
  | [] => true
  | c :: rest => cueDurOk c && sanityAux c rest

/-- The onset shift `Math.min(Math.max(0, onsetTime), 0.15)`. -/
def onsetShift (onsetTime : ℚ) : ℚ :=
  rmin (rmax 0 onsetTime) 0.15

/-- `refineSubtitlesWithAudio`, given the awaited `analyzeAudioSilences`
profile and the fallback cue list.  (The source's `rawText` argument is
unused in its body; the `n == 0` early return is unreachable because
`n = Math.max(1, fallback.length) ≥ 1`.) -/
def refineSubtitlesWithAudio (profile : SilenceProfile) (fallback : List Cue) : List Cue :=
  let duration := profile.duration
  let n := max 1 fallback.length
  let eps : ℚ := 0.15
  let bt := List.insertionSort (· ≤ ·)
    (profile.boundaryTimes.filter fun t => eps < t && t < duration - eps)
  let shift := onsetShift profile.onsetTime
  if 0 < duration ∧ n - 1 ≤ bt.length ∧ 2 ≤ n then
    let cut := bt.take (n - 1)
    let results := fitLoop fallback cut duration shift n 0 0
    if sanityOk results then results else fallback
  else if 0 < shift ∧ 2 ≤ n then shiftFallback fallback shift
  else fallback

/-! ### Streaming playback queue (`DigitalJiagengPage.tsx`)

The refs `audioQueueRef`, `currentQueueIndexRef`, `isPlayingQueueRef`,
`accumulatedTextRef`, `lastSubtitleRef` and the React state
`isProcessing`, `currentlyPlaying`, `currentSubtitleText` are gathered into
one record.  Playback is event-driven: creating an `Audio` element and
calling `play()` is modelled by appending the segment's index to the
observation trace `played`; the element's `onended` / `onerror` /
`play().catch` continuations are the `ended` / `errored` events.  The
`setMessages` chat-transcript updates are pure UI and are elided. -/

/-- One entry of `audioQueueRef` (the enqueued `segmentData`). -/
structure StreamSeg where
  segmentIndex : ℕ
  audioUrl : String
  text : String
  subtitles : List Cue
  duration : ℚ
deriving DecidableEq

/-- `a.segmentIndex - b.segmentIndex` ascending comparator. -/
def segLe (a b : StreamSeg) : Prop :=
  a.segmentIndex ≤ b.segmentIndex

instance : DecidableRel segLe := fun a b =>
  inferInstanceAs (Decidable (a.segmentIndex ≤ b.segmentIndex))

instance : IsTotal StreamSeg segLe :=
  ⟨fun a b => Nat.le_total a.segmentIndex b.segmentIndex⟩

instance : IsTrans StreamSeg segLe :=
  ⟨fun _ _ _ => Nat.le_trans⟩

/-- `audioQueueRef.current.sort((a, b) => a.segmentIndex - b.segmentIndex)`;
JavaScript `Array.prototype.sort` is stable, as is insertion sort. -/
def sortQueue (l : List StreamSeg) : List StreamSeg :=
  List.insertionSort segLe l

/-- The discriminant of a streamed chunk. -/
inductive ChunkType
  | segment
  | complete
  | error
deriving DecidableEq

/-- A streamed chunk as consumed by the `chatWithJiagengStream` callback;
absent JSON fields are `none`. -/
structure StreamChunk where
  type : ChunkType
  segment_index : Option ℕ
  audio_url : Option String
  text : Option String
  subtitles : Option (List Cue)
  audio_duration : Option ℚ
deriving DecidableEq

/-- JavaScript truthiness of an optional string field: `undefined` and the
empty string are falsy. -/
def truthyStr : Option String → Bool
  | none => false
  | some s => !s.isEmpty

/-- The `segmentData` object built from a `segment` chunk
(`chunk.segment_index || 0`, `chunk.subtitles || []`,
`chunk.audio_duration || 0`). -/
def mkSegmentData (c : StreamChunk) : StreamSeg :=
  { segmentIndex := c.segment_index.getD 0
    audioUrl := c.audio_url.getD ""
    text := c.text.getD ""
    subtitles := c.subtitles.getD []
    duration := c.audio_duration.getD 0 }

/-- The per-conversation mutable state of the streaming pipeline. -/
structure QState where
  queue : List StreamSeg
  cursor : ℕ
  isPlayingQueue : Bool
  accumulatedText : String
  isProcessing : Bool
  currentlyPlaying : Option String
  currentSubtitleText : String
  lastSubtitle : String
  played : List ℕ
deriving DecidableEq

/-- The state when the page mounts. -/
def initState : QState :=
  { queue := [], cursor := 0, isPlayingQueue := false, accumulatedText := ""
    isProcessing := false, currentlyPlaying := none, currentSubtitleText := ""
    lastSubtitle := "", played := [] }

/-- `playNextSegment(messageId)`: if the cursor has run past the queue, clear
the queue and return to idle; otherwise mark the queue as playing and start
the segment at the cursor (recorded in `played`).  The source's
`if (!segment)` hole guard is unreachable over a dense list. -/
def playNextSegment (messageId : String) (st : QState) : QState :=
  if h : st.cursor < st.queue.length then
    let segment := st.queue.get ⟨st.cursor, h⟩
    { st with isPlayingQueue := true
              currentlyPlaying := some messageId
              played := st.played ++ [segment.segmentIndex] }
  else
    { st with isPlayingQueue := false, cursor := 0, queue := []
              currentSubtitleText := "", currentlyPlaying := none }

/-- The `chatWithJiagengStream` chunk callback, specialised to the reply
message id `messageId`.  A `segment` chunk is enqueued (and sorted) only when
both `audio_url` and `text` are truthy; when the queue just became length 1
and nothing is playing, thinking ends and playback starts. -/
def handleStreamChunk (messageId : String) (c : StreamChunk) (st : QState) : QState :=
  match c.type with
  | .segment =>
    if truthyStr c.audio_url && truthyStr c.text then
      let segmentData := mkSegmentData c
      let queue := sortQueue (st.queue ++ [segmentData])
      let st1 := { st with queue := queue
                           accumulatedText := st.accumulatedText ++ c.text.getD "" }
      if queue.length = 1 && !st1.isPlayingQueue then
        playNextSegment messageId { st1 with isProcessing := false }
      else st1
    else st
  | .complete => { st with isProcessing := false }
  | .error => { st with isProcessing := false, currentlyPlaying := none }

/-- The active audio handle's `onended` / `onerror` / `play().catch`
continuation: advance the cursor and play the next segment.  The message id
captured by the closure is the one the active playback was started with. -/
def onAudioEnded (st : QState) : QState :=
  playNextSegment (st.currentlyPlaying.getD "") { st with cursor := st.cursor + 1 }

/-- `handleNewConversation`: pause and drop the active audio, reset all
playback/subtitle/processing state and the streaming queue refs.  (Stopping
the recorder, minting the new session id and clearing the chat messages are
elided UI concerns.) -/
def handleNewConversation (st : QState) : QState :=
  { st with currentlyPlaying := none, currentSubtitleText := ""
            isProcessing := false, lastSubtitle := ""
            queue := [], cursor := 0, isPlayingQueue := false
            accumulatedText := "" }

/-- The queue reset performed by `handleAudioMessageStream` right before the
network call, together with `setIsProcessing(true)`. -/
def streamStart (st : QState) : QState :=
  { st with isProcessing := true, queue := [], cursor := 0
            isPlayingQueue := false, accumulatedText := "" }

/-- The inbound events driving the pipeline on the single cooperative
execution context. -/
inductive StreamEv
  | start
  | chunk (messageId : String) (c : StreamChunk)
  | ended
  | errored
  | newConversation
deriving DecidableEq

/-- Dispatch one event. -/
def stepEv (st : QState) : StreamEv → QState
  | .start => streamStart st
  | .chunk m c => handleStreamChunk m c st
  | .ended => onAudioEnded st
  | .errored => onAudioEnded st
  | .newConversation => handleNewConversation st

/-- Run a sequence of events. -/
def runEvents (st : QState) (evs : List StreamEv) : QState :=
  evs.foldl stepEv st

/-! ### Subtitle emission on `ontimeupdate` -/

/-- The display text the `ontimeupdate` handler computes at playback position
`t`: the first cue whose window `[max(0, start − ε), end + ε]` (ε = 0.05)
contains `t`, sanitized for display (`''` when no cue matches). -/
def cueDisplayAt (subtitles : List Cue) (t : ℚ) : String :=
  let seg := subtitles.find? fun s =>
    decide (rmax 0 (s.start_time - 0.05) ≤ t) && decide (t ≤ s.end_time + 0.05)
  stripPunctForDisplay ((seg.map Cue.text).getD "")

/-- One `ontimeupdate` tick: returns the updated `lastSubtitleRef` value and
the emitted subtitle text, if any (`setCurrentSubtitleText` fires only when
the display text changed). -/
def onTimeUpdate (subtitles : List Cue) (t : ℚ) (lastSubtitle : String) :
    String × Option String :=
  let shown := cueDisplayAt subtitles t
  if shown ≠ lastSubtitle then (shown, some shown) else (lastSubtitle, none)

/-- Cue lookup exactly as the specification words it: the first cue whose
window `[start − ε, end + ε]` (ε = 0.05) contains `currentTime`. -/
def specCueAt (subtitles : List Cue) (t : ℚ) : Option Cue :=
  subtitles.find? fun s =>
    decide (s.start_time - 0.05 ≤ t) && decide (t ≤ s.end_time + 0.05)

/-! ### Recording stop and WAV conversion (`convertToWav`, `stopRecording`) -/

/-- Failure of `convertToWav`: the host's `decodeAudioData` rejected, i.e.
the captured audio could not be decoded. -/
inductive ConvertError
  | decodeError
deriving DecidableEq

/-- The canonical upload produced on success: the 16 kHz mono PCM rendered by
the host, wrapped in the fixed 44-byte-header WAV container. -/
structure WavBlob where
  pcm : List ℚ
deriving DecidableEq

/-- `convertToWav`, with the host decode-and-render outcome made explicit:
`none` means `decodeAudioData` rejected, in which case the conversion fails
with a decode error; otherwise the rendered PCM is wrapped as WAV. -/
def convertToWav (decodeResult : Option (List ℚ)) : Except ConvertError WavBlob :=
  match decodeResult with
  | none => .error .decodeError
  | some pcm => .ok { pcm := pcm }

/-- The file submitted for the turn: either the converted
`recording.wav`, or the raw recorded chunks re-wrapped as `recording.webm`. -/
inductive UploadFile
  | wav (pcm : List ℚ)
  | webmRaw (chunks : List ℕ)
deriving DecidableEq

/-- What the `onstop` handler does with the turn. -/
inductive TurnSubmission
  | streamRequest (f : UploadFile)
  | aborted
deriving DecidableEq

/-- The `mediaRecorder.onstop` continuation of `stopRecording` (streaming
path): convert the recorded chunks to WAV and submit; if conversion throws,
fall back to submitting the original recording as `audio/webm`. -/
def onRecordingStop (chunks : List ℕ) (decodeResult : Option (List ℚ)) : TurnSubmission :=
  match convertToWav decodeResult with
  | .ok w => .streamRequest (.wav w.pcm)
  | .error _ => .streamRequest (.webmRaw chunks)

/-! ### Cue-list invariants named by the specification -/

/-- Every cue lasts at least `MIN_CUE_DURATION = 0.25 s`. -/
def MinCueDur (l : List Cue) : Prop :=
  ∀ c ∈ l, 0.25 ≤ c.end_time - c.start_time

/-- Adjacent cues do not overlap: `start[i+1] ≥ end[i]`. -/
def CuesNoOverlap (l : List Cue) : Prop :=
  List.Chain' (fun a b => a.end_time ≤ b.start_time) l

/-- Cue start times are non-decreasing. -/
def CueStartsMono (l : List Cue) : Prop :=
  List.Chain' (fun a b => a.start_time ≤ b.start_time) l

/-! ### Helper lemmas about the streaming queue -/

theorem playNextSegment_queue_cases (m : String) (st : QState) :
    (playNextSegment m st).queue = st.queue ∨ (playNextSegment m st).queue = [] := by
  unfold playNextSegment
  split
  · exact Or.inl rfl
  · exact Or.inr rfl

theorem handleStreamChunk_skip (m : String) (c : StreamChunk) (st : QState)
    (hseg : c.type = ChunkType.segment)
    (hf : (truthyStr c.audio_url && truthyStr c.text) = false) :
    handleStreamChunk m c st = st := by
  obtain ⟨ty, si, au, tx, su, du⟩ := c
  subst hseg
  simp only [handleStreamChunk] at *
  simp [hf]

theorem handleStreamChunk_enq (m : String) (c : StreamChunk) (st : QState)
    (hseg : c.type = ChunkType.segment)
    (ha : truthyStr c.audio_url = true) (ht : truthyStr c.text = true)
    (hc : st.cursor ≤ st.queue.length) :
    (handleStreamChunk m c st).queue = sortQueue (st.queue ++ [mkSegmentData c]) ∧
    (handleStreamChunk m c st).accumulatedText
      = st.accumulatedText ++ c.text.getD "" := by
  obtain ⟨ty, si, au, tx, su, du⟩ := c
  subst hseg
  simp only [handleStreamChunk, ha, ht, Bool.and_self, if_true]
  split
  · next hcond =>
    have hlen : (sortQueue (st.queue ++ [mkSegmentData ⟨ChunkType.segment, si, au, tx, su, du⟩])).length = 1 := by
      simp only [Bool.and_eq_true, decide_eq_true_eq] at hcond
      exact hcond.1
    have hq0 : st.queue.length = 0 := by
      have hl := List.length_insertionSort segLe (st.queue ++ [mkSegmentData ⟨ChunkType.segment, si, au, tx, su, du⟩])
      simp only [sortQueue] at hlen
      rw [hl, List.length_append, List.length_singleton] at hlen
      omega
    have hcur : st.cursor = 0 := by omega
    unfold playNextSegment
    rw [dif_pos]
    · exact ⟨rfl, rfl⟩
    · simp only [hcur, hlen]
      omega
  · exact ⟨rfl, rfl⟩

theorem sortQueue_sorted (l : List StreamSeg) : List.Sorted segLe (sortQueue l) :=
  List.sorted_insertionSort segLe l

theorem stepEv_sorted (st : QState) (e : StreamEv)
    (h : List.Sorted segLe st.queue) : List.Sorted segLe (stepEv st e).queue := by
  cases e with
  | start => exact List.sorted_nil
  | chunk m c =>
    simp only [stepEv]
    obtain ⟨ty, si, au, tx, su, du⟩ := c
    cases ty with
    | segment =>
      simp only [handleStreamChunk]
      split
      · split
        · rcases playNextSegment_queue_cases m _ with hq | hq <;> rw [hq]
          · exact sortQueue_sorted _
          · exact List.sorted_nil
        · exact sortQueue_sorted _
      · exact h
    | complete => exact h
    | error => exact h
  | ended =>
    simp only [stepEv, onAudioEnded]
    rcases playNextSegment_queue_cases (st.currentlyPlaying.getD "")
      { st with cursor := st.cursor + 1 } with hq | hq <;> rw [hq]
    · exact h
    · exact List.sorted_nil
  | errored =>
    simp only [stepEv, onAudioEnded]
    rcases playNextSegment_queue_cases (st.currentlyPlaying.getD "")
      { st with cursor := st.cursor + 1 } with hq | hq <;> rw [hq]
    · exact h
    · exact List.sorted_nil
  | newConversation => exact List.sorted_nil

theorem runEvents_sorted (evs : List StreamEv) (st : QState)
    (h : List.Sorted segLe st.queue) : List.Sorted segLe (runEvents st evs).queue := by
  induction evs generalizing st with
  | nil => exact h
  | cons e rest ih => exact ih (stepEv st e) (stepEv_sorted st e h)

/-- A concrete streamed `segment` chunk with sequence index `i`. -/
def chunkOf (i : ℕ) : StreamChunk :=
  { type := ChunkType.segment, segment_index := some i
    audio_url := some ("u" ++ toString i), text := some ("t" ++ toString i)
    subtitles := none, audio_duration := some 1 }

/-- C1 counterexample: enqueuing segments with sequence indices 2, 0, 1 in
that arrival order (all before the first playback finishes) makes the queue
play index 2 first, then 1, then 2 again — not `[0, 1, 2]`, not strictly
increasing, and with a consumed segment replayed. -/
theorem c1_counterexample :
    (runEvents initState [StreamEv.start, StreamEv.chunk "m" (chunkOf 2),
      StreamEv.chunk "m" (chunkOf 0), StreamEv.chunk "m" (chunkOf 1),
      StreamEv.ended, StreamEv.ended, StreamEv.ended]).played = [2, 1, 2] ∧
    (runEvents initState [StreamEv.start, StreamEv.chunk "m" (chunkOf 2),
      StreamEv.chunk "m" (chunkOf 0), StreamEv.chunk "m" (chunkOf 1),
      StreamEv.ended, StreamEv.ended, StreamEv.ended]).played ≠ [0, 1, 2] ∧
    ¬ List.Chain' (· < ·) (runEvents initState [StreamEv.start,
      StreamEv.chunk "m" (chunkOf 2), StreamEv.chunk "m" (chunkOf 0),
      StreamEv.chunk "m" (chunkOf 1), StreamEv.ended, StreamEv.ended,
      StreamEv.ended]).played ∧
    ¬ List.Nodup (runEvents initState [StreamEv.start,
      StreamEv.chunk "m" (chunkOf 2), StreamEv.chunk "m" (chunkOf 0),
      StreamEv.chunk "m" (chunkOf 1), StreamEv.ended, StreamEv.ended,
      StreamEv.ended]).played := by
  have hp : (runEvents initState [StreamEv.start, StreamEv.chunk "m" (chunkOf 2),
      StreamEv.chunk "m" (chunkOf 0), StreamEv.chunk "m" (chunkOf 1),
      StreamEv.ended, StreamEv.ended, StreamEv.ended]).played = [2, 1, 2] := by decide
  refine ⟨hp, ?_, ?_, ?_⟩
  · rw [hp]; decide
  · rw [hp]
    intro hch
    rw [List.chain'_cons] at hch
    omega
  · rw [hp]
    intro hnd
    rw [List.nodup_cons] at hnd
    simp at hnd

/-- C1 (amended): the queue buffer is kept sorted by sequence index at all
times, but playback starts with whichever segment arrives first and the
cursor is not adjusted when a lower-indexed segment is inserted before it;
consequently enqueuing indices 2, 0, 1 in that arrival order before the first
segment finishes yields playback order `[2, 1, 2]` (index 0 is skipped and
index 2 is replayed). -/
theorem c1_amended :
    (runEvents initState [StreamEv.start, StreamEv.chunk "m" (chunkOf 2),
      StreamEv.chunk "m" (chunkOf 0), StreamEv.chunk "m" (chunkOf 1),
      StreamEv.ended, StreamEv.ended, StreamEv.ended]).played = [2, 1, 2] ∧
    ∀ evs : List StreamEv, List.Sorted segLe (runEvents initState evs).queue := by
  constructor
  · decide
  · intro evs
    exact runEvents_sorted evs initState List.sorted_nil

/-- A stale streamed segment chunk completing after a reset. -/
def staleChunk : StreamChunk :=
  { type := ChunkType.segment, segment_index := some 0
    audio_url := some "segment-0.wav", text := some "大家好"
    subtitles := none, audio_duration := some (3/2) }

/-- C3 counterexample: a streamed segment completion delivered after
`handleNewConversation` is not discarded — relative to the freshly reset
state it mutates the segment queue, the accumulated reply text, the playback
flag and the active-playback id. -/
theorem c3_counterexample :
    (runEvents initState [StreamEv.start, StreamEv.newConversation,
      StreamEv.chunk "m1" staleChunk]).queue ≠
      (runEvents initState [StreamEv.start, StreamEv.newConversation]).queue ∧
    (runEvents initState [StreamEv.start, StreamEv.newConversation,
      StreamEv.chunk "m1" staleChunk]).accumulatedText ≠
      (runEvents initState [StreamEv.start, StreamEv.newConversation]).accumulatedText ∧
    (runEvents initState [StreamEv.start, StreamEv.newConversation,
      StreamEv.chunk "m1" staleChunk]).isPlayingQueue ≠
      (runEvents initState [StreamEv.start, StreamEv.newConversation]).isPlayingQueue ∧
    (runEvents initState [StreamEv.start, StreamEv.newConversation,
      StreamEv.chunk "m1" staleChunk]).currentlyPlaying ≠
      (runEvents initState [StreamEv.start, StreamEv.newConversation]).currentlyPlaying := by
  refine ⟨by decide, by decide, by decide, by decide⟩

/-- C3 (amended): `handleNewConversation` resets the queue refs, but a
decode/stream completion arriving afterwards is applied to the fresh state
rather than discarded: the stale segment is enqueued into the new session's
queue, its text is appended to the (reset) accumulated transcript, and
playback starts under the stale turn's message id. -/
theorem c3_amended (st : QState) (m : String) (c : StreamChunk)
    (hseg : c.type = ChunkType.segment)
    (ha : truthyStr c.audio_url = true) (ht : truthyStr c.text = true) :
    (handleStreamChunk m c (handleNewConversation st)).queue = [mkSegmentData c] ∧
    (handleStreamChunk m c (handleNewConversation st)).accumulatedText = c.text.getD "" ∧
    (handleStreamChunk m c (handleNewConversation st)).isPlayingQueue = true ∧
    (handleStreamChunk m c (handleNewConversation st)).currentlyPlaying = some m := by
  obtain ⟨ty, si, au, tx, su, du⟩ := c
  subst hseg
  simp only [handleNewConversation, handleStreamChunk, ha, ht, Bool.and_self, if_true]
  simp only [List.nil_append, sortQueue, List.insertionSort]
  simp [playNextSegment]

/-- C3 witness. -/
theorem c3_witness :
    (handleStreamChunk "m1" staleChunk (handleNewConversation initState)).queue
      = [mkSegmentData staleChunk] ∧
    (handleStreamChunk "m1" staleChunk (handleNewConversation initState)).accumulatedText
      = "大家好" ∧
    (handleStreamChunk "m1" staleChunk (handleNewConversation initState)).isPlayingQueue
      = true ∧
    (handleStreamChunk "m1" staleChunk (handleNewConversation initState)).currentlyPlaying
      = some "m1" :=
  c3_amended initState "m1" staleChunk rfl (by decide) (by decide)

/-- A streamed segment chunk that carries no `subtitles` field. -/
def noSubChunk : StreamChunk :=
  { type := ChunkType.segment, segment_index := some 0
    audio_url := some "segment-0.wav", text := some "你好，欢迎"
    subtitles := none, audio_duration := some 2 }

/-- C4 counterexample: a streamed segment whose event carries no subtitles is
enqueued with an *empty* cue list (the stream handler stores
`chunk.subtitles || []` and never invokes the silence analysis / subtitle
alignment), even though the locally derivable cue list for the segment's text
and duration would be non-empty. -/
theorem c4_counterexample :
    ((handleStreamChunk "m" noSubChunk initState).queue.map StreamSeg.subtitles)
      = [[]] ∧
    generateSubtitles "你好，欢迎" 2 ≠ [] := by
  exact ⟨by decide, by decide⟩

/-- C4 (amended): a streamed segment event missing `subtitles` is enqueued
(and later played) with the empty cue list; the stream pipeline performs no
local silence analysis or subtitle alignment for it. -/
theorem c4_amended (st : QState) (m : String) (c : StreamChunk)
    (hseg : c.type = ChunkType.segment)
    (ha : truthyStr c.audio_url = true) (ht : truthyStr c.text = true)
    (hsub : c.subtitles = none) (hc : st.cursor ≤ st.queue.length) :
    (mkSegmentData c).subtitles = [] ∧
    mkSegmentData c ∈ (handleStreamChunk m c st).queue := by
  constructor
  · simp [mkSegmentData, hsub]
  · have h := (handleStreamChunk_enq m c st hseg ha ht hc).1
    rw [h]
    show mkSegmentData c ∈ List.insertionSort segLe (st.queue ++ [mkSegmentData c])
    exact ((List.perm_insertionSort segLe _).mem_iff).2 (by simp)

/-- C4 witness. -/
theorem c4_witness :
    (mkSegmentData noSubChunk).subtitles = [] ∧
    mkSegmentData noSubChunk ∈ (handleStreamChunk "m" noSubChunk initState).queue :=
  c4_amended initState "m" noSubChunk rfl (by decide) (by decide) rfl (by decide)

/-- C8 counterexample: when the host cannot decode the captured audio,
`convertToWav` does fail with a decode error, but the `onstop` handler does
*not* abort the turn — it retries with the original un-normalized recording
(`recording.webm`) as a substitute input. -/
theorem c8_counterexample :
    convertToWav none = Except.error ConvertError.decodeError ∧
    onRecordingStop [1, 2, 3] none
      = TurnSubmission.streamRequest (UploadFile.webmRaw [1, 2, 3]) ∧
    onRecordingStop [1, 2, 3] none ≠ TurnSubmission.aborted := by
  exact ⟨rfl, rfl, by decide⟩

/-- C8 (amended): undecodable input makes `convertToWav` fail with a decode
error; the recording-stop handler catches that failure and submits the
original raw recording as `audio/webm` for the same turn instead of aborting
it. -/
theorem c8_amended : ∀ chunks : List ℕ,
    convertToWav none = Except.error ConvertError.decodeError ∧
    onRecordingStop chunks none
      = TurnSubmission.streamRequest (UploadFile.webmRaw chunks) :=
  fun _ => ⟨rfl, rfl⟩

/-- C10: a streamed `segment` event missing (or carrying an empty)
`audio_url` or `text` leaves the whole pipeline state untouched — nothing is
enqueued, the transcript is unchanged, and the first-segment transition does
not fire; when both fields are truthy the segment is enqueued into the sorted
buffer and its text appended to the transcript. -/
theorem c10_segment_guard (st : QState) (m : String) (c : StreamChunk)
    (hseg : c.type = ChunkType.segment) (hc : st.cursor ≤ st.queue.length) :
    ((truthyStr c.audio_url = false ∨ truthyStr c.text = false) →
      handleStreamChunk m c st = st) ∧
    (truthyStr c.audio_url = true → truthyStr c.text = true →
      (handleStreamChunk m c st).queue = sortQueue (st.queue ++ [mkSegmentData c]) ∧
      (handleStreamChunk m c st).accumulatedText
        = st.accumulatedText ++ c.text.getD "") := by
  constructor
  · intro hor
    apply handleStreamChunk_skip m c st hseg
    rcases hor with h | h <;> simp [h]
  · intro ha ht
    exact handleStreamChunk_enq m c st hseg ha ht hc

/-- A segment chunk with an absent `audio_url`. -/
def badChunk : StreamChunk :=
  { type := ChunkType.segment, segment_index := some 1
    audio_url := none, text := some "x"
    subtitles := none, audio_duration := none }

/-- A well-formed segment chunk. -/
def goodChunk : StreamChunk :=
  { type := ChunkType.segment, segment_index := some 3
    audio_url := some "u3", text := some "好", subtitles := some []
    audio_duration := some 1 }

/-- C10 witness. -/
theorem c10_witness :
    handleStreamChunk "m" badChunk initState = initState ∧
    (handleStreamChunk "m" goodChunk initState).queue
      = sortQueue (initState.queue ++ [mkSegmentData goodChunk]) :=
  ⟨(c10_segment_guard initState "m" badChunk rfl (by decide)).1 (Or.inl rfl),
   ((c10_segment_guard initState "m" goodChunk rfl (by decide)).2 rfl rfl).1⟩

/-! ### C6 — segmentation strategy selection -/

/-- Modelled from the spec for comparison with the source: the
three-strategy segmentation policy as C6 states it (whitespace split iff it
yields at least 3 tokens, otherwise punctuation split, and fixed 12-character
windows whenever those collapse to at most one chunk). -/
def specSegmentationPolicy (text : List Char) : Prop :=
  (3 ≤ (splitWs text).length ∧ segmentText text = splitWs text) ∨
  ((splitWs text).length < 3 ∧ 2 ≤ (punctSegments text).length ∧
    segmentText text = punctSegments text) ∨
  ((splitWs text).length < 3 ∧ (punctSegments text).length ≤ 1 ∧
    segmentText text = chunksOf12 (stripPunctChars text))

/-- C6 counterexample: on `"你好 世界"` (two whitespace-separated tokens, no
sentence punctuation) the source uses a fourth strategy — it falls back to
the 2-token whitespace split — whereas the claimed policy would require the
12-character-window split here. -/
theorem c6_counterexample : ¬ specSegmentationPolicy (String.data "你好 世界") := by
  unfold specSegmentationPolicy
  decide

/-- C6 (amended): segmentation uses exactly four strategies, in order:
whitespace split when it yields ≥ 3 tokens; otherwise punctuation split when
it yields ≥ 2 chunks; otherwise the whitespace split again when it yields
exactly 2 tokens; otherwise fixed 12-character windows over the
punctuation-stripped text. -/
theorem c6_amended (text : List Char) :
    (3 ≤ (splitWs text).length ∧ segmentText text = splitWs text) ∨
    ((splitWs text).length < 3 ∧ 2 ≤ (punctSegments text).length ∧
      segmentText text = punctSegments text) ∨
    ((splitWs text).length = 2 ∧ (punctSegments text).length ≤ 1 ∧
      segmentText text = splitWs text) ∨
    ((splitWs text).length ≤ 1 ∧ (punctSegments text).length ≤ 1 ∧
      segmentText text = chunksOf12 (stripPunctChars text)) := by
  by_cases h1 : 3 ≤ (splitWs text).length
  · exact Or.inl ⟨h1, by simp [segmentText, h1]⟩
  · by_cases h2 : 2 ≤ (punctSegments text).length
    · refine Or.inr (Or.inl ⟨by omega, h2, ?_⟩)
      have hp : ¬ (punctSegments text).length ≤ 1 := by omega
      simp [segmentText, h1, hp]
    · have hp : (punctSegments text).length ≤ 1 := by omega
      by_cases h3 : 1 < (splitWs text).length
      · refine Or.inr (Or.inr (Or.inl ⟨by omega, hp, ?_⟩))
        have hs2 : ¬ (splitWs text).length ≤ 1 := by omega
        simp [segmentText, h1, hp, h3, hs2]
      · refine Or.inr (Or.inr (Or.inr ⟨by omega, hp, ?_⟩))
        simp [segmentText, h1, hp, h3]

/-! ### C7 — too few boundaries never produce the audio-fitted result -/

/-- C7: whenever the silence profile carries fewer than `n − 1` boundary
timestamps (with `n` the fallback chunk count), `refineSubtitlesWithAudio`
returns the (possibly onset-shifted) fallback by construction — the
audio-fitted branch is structurally unreachable, independently of the sanity
check. -/
theorem c7_fallback_by_construction (profile : SilenceProfile) (fallback : List Cue)
    (h : profile.boundaryTimes.length < max 1 fallback.length - 1) :
    refineSubtitlesWithAudio profile fallback =
      if 0 < onsetShift profile.onsetTime ∧ 2 ≤ max 1 fallback.length
      then shiftFallback fallback (onsetShift profile.onsetTime)
      else fallback := by
  simp only [refineSubtitlesWithAudio]
  split
  · next hcond =>
    exfalso
    obtain ⟨-, h2, -⟩ := hcond
    rw [List.length_insertionSort] at h2
    have h3 := le_trans h2 (List.length_filter_le _ _)
    omega
  · rfl

/-- Concrete fallback cues for the C7 witness. -/
def cueA : Cue := { text := "a", start_time := 0, end_time := 1 }

/-- Concrete fallback cues for the C7 witness. -/
def cueB : Cue := { text := "b", start_time := 1, end_time := 2 }

/-- C7 witness: an empty boundary list with two fallback cues and zero onset
yields the unshifted fallback. -/
theorem c7_witness :
    refineSubtitlesWithAudio { boundaryTimes := [], duration := 1, onsetTime := 0 }
      [cueA, cueB] = [cueA, cueB] := by
  have h := c7_fallback_by_construction
    { boundaryTimes := [], duration := 1, onsetTime := 0 } [cueA, cueB] (by decide)
  rw [h]
  with_unfolding_all decide

/-! ### C9 — idempotent cue emission on `ontimeupdate` -/

theorem find?_ext {α : Type} (p q : α → Bool) (hpq : ∀ a, p a = q a)
    (l : List α) : l.find? p = l.find? q := by
  induction l with
  | nil => rfl
  | cons a l ih =>
    cases hq : q a with
    | true =>
      rw [List.find?_cons_of_pos _ (by simp [hpq a, hq]),
        List.find?_cons_of_pos _ (by simp [hq])]
    | false =>
      rw [List.find?_cons_of_neg _ (by simp [hpq a, hq]),
        List.find?_cons_of_neg _ (by simp [hq])]
      exact ih

theorem cueDisplayAt_eq_spec (subs : List Cue) (t : ℚ) (ht : 0 ≤ t) :
    cueDisplayAt subs t
      = stripPunctForDisplay (((specCueAt subs t).map Cue.text).getD "") := by
  have hfind : (subs.find? fun s =>
      decide (rmax 0 (s.start_time - 0.05) ≤ t) && decide (t ≤ s.end_time + 0.05))
      = subs.find? fun s =>
      decide (s.start_time - 0.05 ≤ t) && decide (t ≤ s.end_time + 0.05) := by
    apply find?_ext
    intro s
    have hiff : (rmax 0 (s.start_time - 0.05) ≤ t) ↔ (s.start_time - 0.05 ≤ t) := by
      rw [rmax_eq_max]
      constructor
      · intro h
        exact le_trans (le_max_right _ _) h
      · intro h
        exact max_le ht h
    rw [decide_eq_decide.mpr hiff]
  unfold cueDisplayAt specCueAt
  rw [hfind]

/-- C9: during playback, an `ontimeupdate` tick emits a cue-changed update
exactly when the sanitized display text of the cue whose window
`[start − 0.05, end + 0.05]` contains `currentTime` differs from the last
emitted text (the emitted value being that display text), and a second tick
at the same `currentTime` never re-emits. -/
theorem c9_emission (subs : List Cue) (t : ℚ) (last : String) (ht : 0 ≤ t) :
    ((onTimeUpdate subs t last).2
      = if stripPunctForDisplay (((specCueAt subs t).map Cue.text).getD "") ≠ last
        then some (stripPunctForDisplay (((specCueAt subs t).map Cue.text).getD ""))
        else none) ∧
    (((onTimeUpdate subs t last).2 ≠ none) ↔
      stripPunctForDisplay (((specCueAt subs t).map Cue.text).getD "") ≠ last) ∧
    (onTimeUpdate subs t ((onTimeUpdate subs t last).1)).2 = none := by
  have hdisp := cueDisplayAt_eq_spec subs t ht
  refine ⟨?_, ?_, ?_⟩
  · unfold onTimeUpdate
    rw [hdisp]
    by_cases hS : stripPunctForDisplay (((specCueAt subs t).map Cue.text).getD "") ≠ last
    · rw [if_pos hS, if_pos hS]
    · rw [if_neg hS, if_neg hS]
  · unfold onTimeUpdate
    rw [hdisp]
    by_cases hS : stripPunctForDisplay (((specCueAt subs t).map Cue.text).getD "") ≠ last
    · rw [if_pos hS]
      simp [hS]
    · rw [if_neg hS]
      simp [hS]
  · have hfst : (onTimeUpdate subs t last).1 = cueDisplayAt subs t := by
      unfold onTimeUpdate
      by_cases hS : cueDisplayAt subs t ≠ last
      · rw [if_pos hS]
      · rw [if_neg hS]
        push_neg at hS
        exact hS.symm
    rw [hfst]
    unfold onTimeUpdate
    simp

/-- C9 witness: a single cue `"你好，"` spanning `[0, 1]`, queried at
`t = 1/2` with empty last-emitted text, emits the sanitized text. -/
theorem c9_witness :
    (onTimeUpdate [{ text := "你好，", start_time := 0, end_time := 1 }]
      (1/2) "").2 = some "你好" := by
  have h := c9_emission [{ text := "你好，", start_time := 0, end_time := 1 }]
    (1/2) "" (by norm_num)
  have hcue : specCueAt [{ text := "你好，", start_time := 0, end_time := 1 }] (1/2)
      = some { text := "你好，", start_time := 0, end_time := 1 } := by
    unfold specCueAt
    have hpred : (decide ((0 : ℚ) - 0.05 ≤ (1/2 : ℚ))
        && decide ((1/2 : ℚ) ≤ (1 : ℚ) + 0.05)) = true := by
      simp only [Bool.and_eq_true, decide_eq_true_eq]
      constructor <;> norm_num
    exact List.find?_cons_of_pos _ hpred
  rw [h.1, hcue]
  have hstrip : stripPunctForDisplay
      ((Option.map Cue.text
        (some (Cue.mk "你好，" 0 1))).getD "") = "你好" := by decide
  rw [hstrip]
  simp

/-! ### C5 — boundary list of `analyzeAudioSilences` -/

theorem boundaryTimeAt_lt_succ (i : ℕ) : boundaryTimeAt i < boundaryTimeAt (i + 1) := by
  have h9 : (minSilenceFrames / 2 : ℕ) = 9 := rfl
  unfold boundaryTimeAt
  rw [h9]
  push_cast
  linarith

theorem silenceStep_boundary (threshold : ℚ) (idx : ℕ) (r : ℚ) (st : SilenceScan) :
    (silenceStep threshold idx r st).boundaryTimes = st.boundaryTimes ∨
    ((silenceStep threshold idx r st).boundaryTimes
        = st.boundaryTimes ++ [boundaryTimeAt idx] ∧ 0 < boundaryTimeAt idx) := by
  by_cases hrun : (if r < threshold then st.run + 1 else 0) = minSilenceFrames
  · by_cases htime : 0 < boundaryTimeAt idx
    · refine Or.inr ⟨?_, htime⟩
      simp [silenceStep, hrun, htime]
    · refine Or.inl ?_
      simp [silenceStep, hrun, htime]
  · refine Or.inl ?_
    simp [silenceStep, hrun]

theorem silenceScan_inv (threshold : ℚ) (rms : List ℚ) :
    ∀ (idx : ℕ) (st : SilenceScan),
      List.Chain' (· < ·) st.boundaryTimes →
      (∀ x ∈ st.boundaryTimes, 0 < x) →
      (∀ x ∈ st.boundaryTimes, x < boundaryTimeAt idx) →
      List.Chain' (· < ·) (silenceScan threshold idx rms st).boundaryTimes ∧
      (∀ x ∈ (silenceScan threshold idx rms st).boundaryTimes, 0 < x) := by
  induction rms with
  | nil =>
    intro idx st h1 h2 h3
    exact ⟨h1, h2⟩
  | cons r rest ih =>
    intro idx st h1 h2 h3
    rw [silenceScan]
    have hmono := boundaryTimeAt_lt_succ idx
    rcases silenceStep_boundary threshold idx r st with hb | ⟨hb, hpos⟩
    · refine ih (idx + 1) _ ?_ ?_ ?_
      · rw [hb]; exact h1
      · rw [hb]; exact h2
      · rw [hb]
        intro x hx
        exact lt_trans (h3 x hx) hmono
    · refine ih (idx + 1) _ ?_ ?_ ?_
      · rw [hb, List.chain'_append]
        refine ⟨h1, List.chain'_singleton _, ?_⟩
        intro x hx y hy
        simp only [List.head?_cons, Option.mem_def, Option.some.injEq] at hy
        subst hy
        exact h3 x (List.mem_of_mem_getLast? hx)
      · rw [hb]
        intro x hx
        rcases List.mem_append.mp hx with hm | hm
        · exact h2 x hm
        · simp only [List.mem_singleton] at hm
          subst hm
          exact hpos
      · rw [hb]
        intro x hx
        rcases List.mem_append.mp hx with hm | hm
        · exact lt_trans (h3 x hm) hmono
        · simp only [List.mem_singleton] at hm
          subst hm
          exact hmono

/-- C5 (amended): for every clip (every frame-RMS sequence and duration) the
boundary-timestamp list returned by `analyzeAudioSilences` is strictly
increasing and every boundary is strictly positive; the analyzer itself does
*not* restrict boundaries to `(0.15, duration − 0.15)` — that filter is
applied later, inside `refineSubtitlesWithAudio`. -/
theorem c5_amended (rms : List ℚ) (duration : ℚ) :
    List.Chain' (· < ·) (analyzeAudioSilences rms duration).boundaryTimes ∧
    ∀ b ∈ (analyzeAudioSilences rms duration).boundaryTimes, 0 < b := by
  simp only [analyzeAudioSilences]
  refine silenceScan_inv _ rms 0 _ List.chain'_nil (by simp) (by simp)

set_option maxRecDepth 8000 in
/-- C5 counterexample: an all-silent clip (99 zero-RMS frames, 1 s) produces
the boundary `0.08 s = 2/25`, which is *not* inside `(0.15, duration − 0.15)`
— `analyzeAudioSilences` only checks `time > 0`. -/
theorem c5_counterexample :
    (analyzeAudioSilences (List.replicate 99 0) 1).boundaryTimes = [2/25] ∧
    ¬ (∀ b ∈ (analyzeAudioSilences (List.replicate 99 0) 1).boundaryTimes,
        (0.15 : ℚ) < b ∧
          b < (analyzeAudioSilences (List.replicate 99 0) 1).duration - 0.15) := by
  have hb : (analyzeAudioSilences (List.replicate 99 0) 1).boundaryTimes = [2/25] := by
    with_unfolding_all decide
  refine ⟨hb, ?_⟩
  intro hall
  have h := (hall (2/25) (by rw [hb]; exact List.mem_singleton_self _)).1
  norm_num at h

set_option maxRecDepth 8000 in
/-- C5 witness. -/
theorem c5_witness :
    List.Chain' (· < ·) (analyzeAudioSilences (List.replicate 99 0) 1).boundaryTimes ∧
    (0 : ℚ) < 2/25 := by
  refine ⟨(c5_amended (List.replicate 99 0) 1).1, ?_⟩
  have hb : (analyzeAudioSilences (List.replicate 99 0) 1).boundaryTimes = [2/25] := by
    with_unfolding_all decide
  exact (c5_amended (List.replicate 99 0) 1).2 (2/25)
    (by rw [hb]; exact List.mem_singleton_self _)

/-! ### C2 — invariants of finalized cue lists -/

theorem rmax_choice (a b : ℚ) : rmax a b = a ∨ rmax a b = b := by
  unfold rmax
  split
  · exact Or.inr rfl
  · exact Or.inl rfl

theorem sanityAux_imp (p : Cue) (l : List Cue) (h : sanityAux p l = true) :
    sanityOk l = true := by
  cases l with
  | nil => rfl
  | cons c rest =>
    simp only [sanityAux, Bool.and_eq_true] at h
    simp only [sanityOk, Bool.and_eq_true]
    exact ⟨h.1.1, h.2⟩

theorem fit_cons_inv (txt : String) (A E : ℚ) (rest : List Cue)
    (hd : MinCueDur rest) (hov : CuesNoOverlap rest) (hsm : CueStartsMono rest)
    (hdur : (0.25 : ℚ) ≤ E - A)
    (hhead : ∀ c, rest.head? = some c → c.start_time = E) :
    MinCueDur (Cue.mk txt A E :: rest) ∧
    CuesNoOverlap (Cue.mk txt A E :: rest) ∧
    CueStartsMono (Cue.mk txt A E :: rest) := by
  refine ⟨?_, ?_, ?_⟩
  · intro c hc
    rcases List.mem_cons.mp hc with rfl | hm
    · simpa using hdur
    · exact hd c hm
  · show List.Chain' _ _
    rw [List.chain'_cons']
    refine ⟨?_, hov⟩
    intro b hb
    have hb' : b.start_time = E := hhead b hb
    show (Cue.mk txt A E).end_time ≤ b.start_time
    rw [hb']
  · show List.Chain' _ _
    rw [List.chain'_cons']
    refine ⟨?_, hsm⟩
    intro b hb
    have hb' : b.start_time = E := hhead b hb
    show (Cue.mk txt A E).start_time ≤ b.start_time
    rw [hb']
    show A ≤ E
    linarith

theorem fitLoop_invariants (fb : List Cue) (cut : List ℚ) (duration shift : ℚ)
    (n : ℕ) :
    ∀ (k i : ℕ) (start : ℚ), n - i ≤ k →
      sanityOk (fitLoop fb cut duration shift n i start) = true →
      MinCueDur (fitLoop fb cut duration shift n i start) ∧
      CuesNoOverlap (fitLoop fb cut duration shift n i start) ∧
      CueStartsMono (fitLoop fb cut duration shift n i start) := by
  intro k
  induction k with
  | zero =>
    intro i start hk _
    have hin : ¬ i < n := by omega
    rw [fitLoop, dif_neg hin]
    exact ⟨by intro c hc; exact absurd hc (List.not_mem_nil c),
      List.chain'_nil, List.chain'_nil⟩
  | succ k ih =>
    intro i start hk hs
    by_cases hin : i < n
    case neg =>
      rw [fitLoop, dif_neg hin]
      exact ⟨by intro c hc; exact absurd hc (List.not_mem_nil c),
        List.chain'_nil, List.chain'_nil⟩
    case pos =>
      rw [fitLoop, dif_pos hin] at hs ⊢
      simp only [sanityOk, Bool.and_eq_true] at hs
      obtain ⟨hdur0, haux⟩ := hs
      have hdur0' : (0.25 : ℚ) ≤ rmax (rmax 0 (start - shift) + 0.2)
          ((if i = n - 1 then duration else cut.getD i 0) - shift)
          - rmax 0 (start - shift) := by
        simpa [cueDurOk] using hdur0
      have hEe : rmax (rmax 0 (start - shift) + 0.2)
          ((if i = n - 1 then duration else cut.getD i 0) - shift)
          = (if i = n - 1 then duration else cut.getD i 0) - shift := by
        rcases rmax_choice (rmax 0 (start - shift) + 0.2)
          ((if i = n - 1 then duration else cut.getD i 0) - shift) with hc | hc
        · exfalso
          rw [hc] at hdur0'
          linarith
        · exact hc
      have hA0 : (0 : ℚ) ≤ rmax 0 (start - shift) := by
        rw [rmax_eq_max]
        exact le_max_left 0 _
      have hEpos : (0 : ℚ) < (if i = n - 1 then duration else cut.getD i 0) - shift := by
        rw [← hEe]
        linarith
      have hsan_rest := sanityAux_imp _ _ haux
      have ihres := ih (i + 1)
        (if i = n - 1 then duration else cut.getD i 0) (by omega) hsan_rest
      have hhead : ∀ c, (fitLoop fb cut duration shift n (i + 1)
          (if i = n - 1 then duration else cut.getD i 0)).head? = some c →
          c.start_time = rmax (rmax 0 (start - shift) + 0.2)
            ((if i = n - 1 then duration else cut.getD i 0) - shift) := by
        intro c hc
        rw [fitLoop] at hc
        by_cases hin2 : i + 1 < n
        · rw [dif_pos hin2] at hc
          simp only [List.head?_cons, Option.some.injEq] at hc
          subst hc
          show rmax 0 ((if i = n - 1 then duration else cut.getD i 0) - shift) = _
          rw [hEe, rmax_eq_max]
          exact max_eq_right (le_of_lt hEpos)
        · rw [dif_neg hin2] at hc
          simp at hc
      exact fit_cons_inv _ _ _ _ ihres.1 ihres.2.1 ihres.2.2 hdur0' hhead

theorem refine_cases (profile : SilenceProfile) (fallback : List Cue) :
    refineSubtitlesWithAudio profile fallback = fallback ∨
    refineSubtitlesWithAudio profile fallback
      = shiftFallback fallback (onsetShift profile.onsetTime) ∨
    (MinCueDur (refineSubtitlesWithAudio profile fallback) ∧
     CuesNoOverlap (refineSubtitlesWithAudio profile fallback) ∧
     CueStartsMono (refineSubtitlesWithAudio profile fallback)) := by
  simp only [refineSubtitlesWithAudio]
  split
  · split
    · next hsan =>
      refine Or.inr (Or.inr ?_)
      exact fitLoop_invariants _ _ _ _ _ (max 1 fallback.length) 0 0 (by omega) hsan
    · exact Or.inl rfl
  · split
    · exact Or.inr (Or.inl rfl)
    · exact Or.inl rfl

theorem equalDivision_inv (ds : List (List Char)) (n : ℕ) (total : ℚ)
    (hn : 1 ≤ n) (hpos : 0 < total) :
    CueStartsMono ((List.range n).map fun i =>
      { text := String.mk (ds.getD i [])
        start_time := i * (total / n)
        end_time := if i = n - 1 then total else (i + 1) * (total / n) }) ∧
    CuesNoOverlap ((List.range n).map fun i =>
      { text := String.mk (ds.getD i [])
        start_time := i * (total / n)
        end_time := if i = n - 1 then total else (i + 1) * (total / n) }) := by
  have hnpos : (0 : ℚ) < (n : ℚ) := by
    exact_mod_cast lt_of_lt_of_le one_pos hn
  have hslotpos : 0 < total / (n : ℚ) := div_pos hpos hnpos
  obtain ⟨m, rfl⟩ : ∃ m, n = m + 1 := ⟨n - 1, by omega⟩
  constructor
  · show List.Chain' _ _
    rw [List.chain'_map]
    refine (List.chain'_range_succ _ _).mpr ?_
    intro j hj
    dsimp only
    refine mul_le_mul_of_nonneg_right ?_ (le_of_lt hslotpos)
    push_cast
    linarith
  · show List.Chain' _ _
    rw [List.chain'_map]
    refine (List.chain'_range_succ _ _).mpr ?_
    intro j hj
    dsimp only
    rw [if_neg (show ¬ j = m + 1 - 1 by omega)]
    push_cast
    exact le_refl _

theorem generateSubtitles_inv (rawText : String) (durationSec : ℚ) :
    CueStartsMono (generateSubtitles rawText durationSec) ∧
    CuesNoOverlap (generateSubtitles rawText durationSec) := by
  simp only [generateSubtitles]
  split
  · exact ⟨List.chain'_nil, List.chain'_nil⟩
  · apply equalDivision_inv
    · exact le_max_left _ _
    · split
      · next h => exact h
      · next h =>
        exact_mod_cast lt_of_lt_of_le one_pos (le_max_left 1 _)

theorem shiftFallback_minDur (fb : List Cue) (shift : ℚ) :
    ∀ c ∈ shiftFallback fb shift, (0.2 : ℚ) ≤ c.end_time - c.start_time := by
  intro c hc
  simp only [shiftFallback, List.mem_map] at hc
  obtain ⟨seg, -, rfl⟩ := hc
  dsimp only
  have h : rmax 0 (seg.start_time - shift) + 0.2
      ≤ rmax (rmax 0 (seg.start_time - shift) + 0.2) (seg.end_time - shift) := by
    rw [rmax_eq_max (rmax 0 (seg.start_time - shift) + 0.2)]
    exact le_max_left _ _
  linarith

/-- C2 (amended): every finalized cue list produced by the *accepted
audio-fitted* path satisfies all three invariants (duration ≥ 0.25 s, no
overlap, non-decreasing starts) — any other `refineSubtitlesWithAudio` result
is the fallback itself or the onset-shifted fallback; the equal-division
fallback always has non-decreasing starts and non-overlapping cues (but its
slot `duration / n` may be shorter than 0.25 s); onset-shifted cues keep at
least 0.2 s of duration (but may overlap). -/
theorem c2_amended :
    (∀ (profile : SilenceProfile) (fallback : List Cue),
      refineSubtitlesWithAudio profile fallback = fallback ∨
      refineSubtitlesWithAudio profile fallback
        = shiftFallback fallback (onsetShift profile.onsetTime) ∨
      (MinCueDur (refineSubtitlesWithAudio profile fallback) ∧
       CuesNoOverlap (refineSubtitlesWithAudio profile fallback) ∧
       CueStartsMono (refineSubtitlesWithAudio profile fallback))) ∧
    (∀ (rawText : String) (durationSec : ℚ),
      CueStartsMono (generateSubtitles rawText durationSec) ∧
      CuesNoOverlap (generateSubtitles rawText durationSec)) ∧
    (∀ (fb : List Cue) (shift : ℚ), ∀ c ∈ shiftFallback fb shift,
      (0.2 : ℚ) ≤ c.end_time - c.start_time) :=
  ⟨refine_cases, generateSubtitles_inv, shiftFallback_minDur⟩

theorem equalDivision_head (ds : List (List Char)) (n : ℕ) (total : ℚ)
    (hn : 1 ≤ n) :
    ∃ c ∈ (List.range n).map (fun i =>
      ({ text := String.mk (ds.getD i [])
         start_time := i * (total / n)
         end_time := if i = n - 1 then total else (i + 1) * (total / n) } : Cue)),
      c.end_time - c.start_time = total / n := by
  refine ⟨_, List.mem_map.mpr ⟨0, List.mem_range.mpr (by omega), rfl⟩, ?_⟩
  dsimp only
  by_cases h0 : (0 : ℕ) = n - 1
  · rw [if_pos h0]
    have hn1 : n = 1 := by omega
    subst hn1
    push_cast
    ring
  · rw [if_neg h0]
    push_cast
    ring

theorem generateSubtitles_head (rawText : String) (d : ℚ)
    (hne : (trimWs rawText.data).isEmpty = false) (hd : 0 < d) :
    ∃ c ∈ generateSubtitles rawText d,
      c.end_time - c.start_time
        = d / ((max 1 ((segmentText (trimWs rawText.data)).map stripPunctChars).length : ℕ) : ℚ) := by
  simp only [generateSubtitles, hne, Bool.false_eq_true, if_false, hd, if_true]
  exact equalDivision_head _ _ _ (le_max_left _ _)

/-- C2 counterexample: the equal-division fallback for the three-token text
`"你 好 吗"` over a 0.3 s clip produces cues of duration 0.1 s each,
violating the claimed minimum cue duration of 0.25 s. -/
theorem c2_counterexample :
    ¬ MinCueDur (generateSubtitles "你 好 吗" (3/10)) := by
  intro h
  obtain ⟨c, hc, hdur⟩ :=
    generateSubtitles_head "你 好 吗" (3/10) (by decide) (by norm_num)
  have hlen :
      (max 1 ((segmentText (trimWs ("你 好 吗").data)).map stripPunctChars).length) = 3 := by
    decide
  rw [hlen] at hdur
  have hge := h c hc
  rw [hdur] at hge
  norm_num at hge

/-- C2 witness. -/
theorem c2_witness :
    (refineSubtitlesWithAudio { boundaryTimes := [], duration := 1, onsetTime := 0 } []
        = [] ∨
     refineSubtitlesWithAudio { boundaryTimes := [], duration := 1, onsetTime := 0 } []
        = shiftFallback [] (onsetShift 0) ∨
     (MinCueDur (refineSubtitlesWithAudio
        { boundaryTimes := [], duration := 1, onsetTime := 0 } []) ∧
      CuesNoOverlap (refineSubtitlesWithAudio
        { boundaryTimes := [], duration := 1, onsetTime := 0 } []) ∧
      CueStartsMono (refineSubtitlesWithAudio
        { boundaryTimes := [], duration := 1, onsetTime := 0 } []))) ∧
    (CueStartsMono (generateSubtitles "你 好 吗" 3) ∧
     CuesNoOverlap (generateSubtitles "你 好 吗" 3)) ∧
    (0.2 : ℚ) ≤ (Cue.mk "x" (rmax 0 ((0 : ℚ) - 0))
        (rmax (rmax 0 ((0 : ℚ) - 0) + 0.2) ((1 : ℚ) - 0))).end_time
      - (Cue.mk "x" (rmax 0 ((0 : ℚ) - 0))
        (rmax (rmax 0 ((0 : ℚ) - 0) + 0.2) ((1 : ℚ) - 0))).start_time := by
  refine ⟨c2_amended.1 { boundaryTimes := [], duration := 1, onsetTime := 0 } [],
    c2_amended.2.1 "你 好 吗" 3, ?_⟩
  exact c2_amended.2.2 [Cue.mk "x" 0 1] 0
    (Cue.mk "x" (rmax 0 ((0 : ℚ) - 0))
      (rmax (rmax 0 ((0 : ℚ) - 0) + 0.2) ((1 : ℚ) - 0)))
    (by simp [shiftFallback])
